import Mathlib

/-!
Verification of the `ppt_to_pdf_app.py` curation pipeline.

Shallow embedding of the core of `src/ppt_to_pdf_app.py`:
per-item selection/filter state (`ThumbnailWidget`), the natural-sort
comparator (`natural_sort_key`), the three worker tasks
(`watermark_check_task`, `animation_check_task`, `create_pdf_task`) and the
main-window bulk operations that drive the state machine.

Conventions of the embedding:
 - items are identified by their file (base)name, a `String`;
 - pixel data, perceptual hashes and correlation scores are opaque to the
   control flow being verified, so hashes are modelled as `Nat` together with
   an abstract distance function, correlation scores as `Option Int`
   (`none` = the image failed to decode / match; the `Int` scale stands in
   for the float score, only its linear order is used), and decoded PDF
   pages as `Nat` payloads produced by an abstract decoder
   `String → Option Nat`;
 - the cross-thread signal plumbing (`processing_done`, `pdf_done`) is
   modelled by the tasks returning their terminal payload directly.
-/

namespace PptClean

/-! ## Selection state machine (`ThumbnailWidget`, lines 42-151) -/

/-- Per-item state, `ThumbnailWidget._is_selected` / `_is_filtered`
(lines 47-48). -/
structure ItemState where
  selected : Bool
  filtered : Bool
deriving DecidableEq, Repr, Fintype

/-- Initial state of a freshly created widget: selected, not filtered
(lines 47-48). -/
def initState : ItemState := ⟨true, false⟩

/-- `ThumbnailWidget.set_filtered` (lines 87-95): store the flag, and if it
is now set, clear the selection. -/
def set_filtered (filtered : Bool) (s : ItemState) : ItemState :=
  let s1 : ItemState := ⟨s.selected, filtered⟩
  if s1.filtered then ⟨false, s1.filtered⟩ else s1

/-- `ThumbnailWidget.set_selected` (lines 97-114).  `force = true` writes the
selection unconditionally and clears `filtered` when selecting; `force = false`
is the soft variant that refuses to select a filtered item. -/
def set_selected (selected force : Bool) (s : ItemState) : ItemState :=
  if force then
    let s1 : ItemState := ⟨selected, s.filtered⟩
    if s1.selected then ⟨s1.selected, false⟩ else s1
  else
    if selected then
      if s.filtered then s else ⟨true, s.filtered⟩
    else
      ⟨false, s.filtered⟩

/-- `MainWindow.on_processing_done` (lines 751-762): every item whose name is
in the detector's excluded list is marked filtered; others are untouched. -/
def applyDetection (excluded : List String) (m : String → ItemState) :
    String → ItemState :=
  fun n => if n ∈ excluded then set_filtered true (m n) else m n

/-- The operations the UI can perform on the whole item map:
`mousePressEvent` (line 149), `set_filtered` on one item,
`reset_all_thumbnails` (lines 782-791), `select_visible_thumbnails`
(lines 793-802), `deselect_all_thumbnails` (lines 804-813) and
`on_processing_done` (lines 751-762). -/
inductive Op where
  | toggle (name : String)
  | markFiltered (name : String) (b : Bool)
  | resetAll
  | selectVisible
  | deselectAll
  | detectionDone (excluded : List String)

/-- One UI operation acting on the name-indexed item map. -/
def stepOp : Op → (String → ItemState) → (String → ItemState)
  | .toggle name, m =>
      fun n => if n = name then set_selected (!(m n).selected) true (m n) else m n
  | .markFiltered name b, m =>
      fun n => if n = name then set_filtered b (m n) else m n
  | .resetAll, m => fun n => set_selected true true (m n)
  | .selectVisible, m => fun n => set_selected true false (m n)
  | .deselectAll, m => fun n => set_selected false false (m n)
  | .detectionDone ex, m => applyDetection ex m

/-- Run a sequence of UI operations from a starting item map. -/
def runOps (ops : List Op) (m : String → ItemState) : String → ItemState :=
  ops.foldl (fun m op => stepOp op m) m

/-- The documented state invariant: a filtered item is never selected. -/
def Inv (m : String → ItemState) : Prop :=
  ∀ n, (m n).filtered = true → (m n).selected = false

/-! ## Natural ordering (`natural_sort_key`, lines 27-28)

`natural_sort_key(s)` is
`[int(text) if text.isdigit() else text.lower() for text in re.split(r'(\d+)', s)]`.
`re.split` with a captured digit group returns the (possibly empty)
non-digit segments interleaved with the maximal digit runs, always starting
and ending with a non-digit segment.  The resulting Python list alternates
`str` (even positions) and `int` (odd positions), so comparing two keys
element-wise never compares an `int` with a `str`. -/

/-- One element of a sort key: an integer run or a lowercased text run. -/
inductive KeyElem where
  | num (n : Nat)
  | txt (s : List Char)
deriving DecidableEq, Repr

/-- Python `int(...)` on a run of decimal digits. -/
def digitsToNat (t : List Char) : Nat :=
  t.foldl (fun n c => n * 10 + (c.toNat - 48)) 0

/-- One `re.split` segment to a key element: `int(text)` when
`text.isdigit()` (nonempty, all digits), else `text.lower()`. -/
def toKeyElem : List Char → KeyElem
  | [] => .txt []
  | t => if t.all Char.isDigit then .num (digitsToNat t) else .txt (t.map Char.toLower)

/-- `re.split(r'(\d+)', s)`: alternating (possibly empty) non-digit segments
and maximal digit runs.  The recursion consumes at least one character per
step, so fuel `|s| + 1` always suffices; `natural_sort_key` below supplies
exactly that. -/
def reSplitDigits : Nat → List Char → List (List Char)
  | 0, _ => []
  | fuel + 1, s =>
    let t := s.takeWhile (fun c => !c.isDigit)
    let r := s.dropWhile (fun c => !c.isDigit)
    match r with
    | [] => [t]
    | _ => t :: r.takeWhile Char.isDigit :: reSplitDigits fuel (r.dropWhile Char.isDigit)

/-- `natural_sort_key` (lines 27-28). -/
def natural_sort_key (s : String) : List KeyElem :=
  (reSplitDigits (s.length + 1) s.data).map toKeyElem

/-- Three-way comparison on `Nat`, the order Python uses on the `int` runs. -/
def cmpN (a b : Nat) : Ordering :=
  if a < b then .lt else if b < a then .gt else .eq

/-- Python string comparison orders characters by code point. -/
def cmpChar (a b : Char) : Ordering := cmpN a.toNat b.toNat

/-- Lexicographic comparison of lists by an element comparator; shorter
prefix first — exactly Python's sequence comparison. -/
def cmpListBy (c : α → α → Ordering) : List α → List α → Ordering
  | [], [] => .eq
  | [], _ :: _ => .lt
  | _ :: _, [] => .gt
  | a :: as, b :: bs =>
    match c a b with
    | .eq => cmpListBy c as bs
    | o => o

/-- Comparison of key elements.  Between two runs of the same kind this is
Python's comparison; an `int` run never meets a `str` run at the same
position of two keys (see the alternation note above), so the cross cases
are fixed arbitrarily (and consistently) as `num < txt`. -/
def cmpKE : KeyElem → KeyElem → Ordering
  | .num a, .num b => cmpN a b
  | .num _, .txt _ => .lt
  | .txt _, .num _ => .gt
  | .txt a, .txt b => cmpListBy cmpChar a b

/-- The induced comparison on whole strings: Python list comparison of the
two natural-sort keys. -/
def natCmp (s t : String) : Ordering :=
  cmpListBy cmpKE (natural_sort_key s) (natural_sort_key t)

/-- `o` is `lt` or `eq`. -/
def ordIsLE : Ordering → Bool
  | .gt => false
  | _ => true

/-- The non-strict order `natural_sort_key s <= natural_sort_key t`. -/
def natLe (s t : String) : Bool := ordIsLE (natCmp s t)

/-- Stable insertion into a sorted list (auxiliary for `sortNat`). -/
def insertNat (s : String) : List String → List String
  | [] => [s]
  | t :: ts => if natLe s t then s :: t :: ts else t :: insertNat s ts

/-- Stable sort by `natural_sort_key`, modelling Python's
`list.sort(key=natural_sort_key)` (stable sort by key). -/
def sortNat : List String → List String
  | [] => []
  | s :: rest => insertNat s (sortNat rest)

/-- Property bundle making a three-way comparator a linear preorder:
swap-symmetry, transitivity of `lt`, and left congruence of `eq`. -/
def LawfulCmp (c : α → α → Ordering) : Prop :=
  (∀ a b, (c a b).swap = c b a) ∧
  (∀ a b d, c a b = .lt → c b d = .lt → c a d = .lt) ∧
  (∀ a b d, c a b = .eq → c a d = c b d)

/-! ## Watermark detection (`watermark_check_task`, lines 224-275) -/

/-- The per-candidate exclusion test of `watermark_check_task`
(lines 247-272): a candidate that fails to decode or match is excluded
(fail-closed, lines 270-272); otherwise `found = (score ≥ threshold)`
(line 255) and the candidate is excluded when `invert_logic ∧ found`
(lines 257-259) or `¬invert_logic ∧ ¬found` (lines 263-265). -/
def wmExcludes (score : String → Option Int) (threshold : Int)
    (invert_logic : Bool) (f : String) : Bool :=
  match score f with
  | none => true
  | some v =>
    let found : Bool := threshold ≤ v
    if invert_logic then found else !found

/-- `watermark_check_task` (lines 224-275).  `template = none` models a
template that fails to load (lines 231-237): the task logs and emits the
terminal `processing_done("watermark", [])` with an empty exclusion list.
Otherwise the task emits the list of excluded candidate names. -/
def watermark_check_task (template : Option Unit) (score : String → Option Int)
    (threshold : Int) (invert_logic : Bool) (file_list : List String) :
    List String :=
  match template with
  | none => []
  | some _ => file_list.filter (wmExcludes score threshold invert_logic)

/-! ## Animation-frame deduplication (`animation_check_task`, lines 278-322) -/

/-- `hash_cache` (line 291): a Python dict from file name to hash, newest
binding first. -/
def lookupCache (cache : List (String × Nat)) (k : String) : Option Nat :=
  match cache.find? (fun p => p.1 == k) with
  | some p => some p.2
  | none => none

/-- The comparison loop of `animation_check_task` (lines 300-318).  Each
iteration looks up the cached hash of `prev` and hashes `curr`; on success it
caches `curr`'s hash and excludes `prev` when the distance is within the
threshold; any failure (cache miss `KeyError` or hash failure) skips the
iteration without touching the cache or the exclusion set. -/
def dedupGo (phash : String → Option Nat) (dist : Nat → Nat → Nat)
    (threshold : Nat) (cache : List (String × Nat)) (prev : String)
    (rest : List String) (excluded : List String) : List String :=
  match rest with
  | [] => excluded
  | curr :: rest' =>
    match lookupCache cache prev, phash curr with
    | some hash_prev, some hash_curr =>
      dedupGo phash dist threshold ((curr, hash_curr) :: cache) curr rest'
        (if dist hash_prev hash_curr ≤ threshold then excluded ++ [prev] else excluded)
    | _, _ => dedupGo phash dist threshold cache curr rest' excluded

/-- The body of `animation_check_task` after sorting (lines 288-318): with
fewer than two candidates the loop never runs (empty exclusion); a hash
failure on the first candidate emits the terminal result with an empty
exclusion list and returns (lines 292-298); otherwise the first hash is
cached and the pairwise loop runs. -/
def dedupPass (phash : String → Option Nat) (dist : Nat → Nat → Nat)
    (threshold : Nat) (valid_files : List String) : List String :=
  match valid_files with
  | [] => []
  | [_] => []
  | f0 :: rest =>
    match phash f0 with
    | none => []
    | some h0 => dedupGo phash dist threshold [(f0, h0)] f0 rest []

/-- `animation_check_task` (lines 278-322): sort the selected files with
`natural_sort_key` (line 283), then run the deduplication pass; the returned
list is the payload of `processing_done("animation", ...)`. -/
def animation_check_task (phash : String → Option Nat) (dist : Nat → Nat → Nat)
    (threshold : Nat) (selected_files : List String) : List String :=
  dedupPass phash dist threshold (sortNat selected_files)

/-- Reference description of the pass when every hash succeeds: candidate
`i-1` is excluded exactly when the distance between the original hashes of
candidates `i-1` and `i` is within the threshold. -/
def dedupSpec (h : String → Nat) (dist : Nat → Nat → Nat) (d : Nat) :
    List String → List String
  | a :: b :: rest =>
    (if dist (h a) (h b) ≤ d then [a] else []) ++ dedupSpec h dist d (b :: rest)
  | _ => []

/-! ## Document assembly (`create_pdf_task`, lines 325-357) -/

/-- Terminal outcome of `create_pdf_task`: `pdf_done("success", path)` with
the pages written (cover first), or `pdf_done("fail", reason)` with nothing
written. -/
inductive PdfResult where
  | success (pages : List Nat)
  | fail
deriving DecidableEq, Repr

/-- `create_pdf_task` (lines 325-357).  An empty final list fails
immediately (lines 330-333, nothing written).  A decode failure on the cover
(line 341) escapes the outer `try`, so the job fails and nothing is written.
A decode failure on a later page is caught (lines 345-350): the page is
skipped with a warning.  The saved document is the cover followed by the
surviving pages in input order (line 352); saving itself is modelled as
succeeding. -/
def create_pdf_task (decode : String → Option Nat)
    (images_to_include : List String) : PdfResult :=
  match images_to_include with
  | [] => .fail
  | cover :: rest =>
    match decode cover with
    | none => .fail
    | some c => .success (c :: rest.filterMap decode)

/-! ## Concrete instances used by witnesses and counterexamples -/

/-- Hashes for the three-frame deduplication example: distances 3 and 20. -/
def exHash : String → Nat :=
  fun f => if f = "frame0" then 0 else if f = "frame1" then 3 else
    if f = "frame2" then 23 else 0

/-- A hasher that succeeds on the three example frames. -/
def exPhash : String → Option Nat := fun f => some (exHash f)

/-- A hasher that fails exactly on "f2" and hashes everything else to 0. -/
def c4Phash : String → Option Nat :=
  fun f => if f = "f2" then none else some 0

/-- Scores for the watermark witnesses: every file scores 1. -/
def exScore : String → Option Int := fun _ => some 1

/-- Decoder for the assembly witness: page "b" is undecodable. -/
def exDecode : String → Option Nat :=
  fun f => if f = "a" then some 10 else if f = "b" then none else
    if f = "c" then some 30 else none

/-! ## Selection state machine: invariant preservation -/

/-- `set_filtered` leaves only states satisfying the invariant, whatever the
input state was. -/
theorem set_filtered_inv (b : Bool) (s : ItemState) :
    (set_filtered b s).filtered = true → (set_filtered b s).selected = false := by
  revert b s; decide

/-- `set_selected` preserves the invariant. -/
theorem set_selected_inv (sel force : Bool) (s : ItemState)
    (h : s.filtered = true → s.selected = false) :
    (set_selected sel force s).filtered = true →
      (set_selected sel force s).selected = false := by
  revert sel force s; decide

/-- Every single UI operation preserves the invariant. -/
theorem stepOp_inv (m : String → ItemState) (hm : Inv m) (op : Op) :
    Inv (stepOp op m) := by
  cases op with
  | toggle name =>
    intro n
    simp only [stepOp]
    by_cases h : n = name
    · simp only [if_pos h]; exact set_selected_inv _ _ _ (hm n)
    · simp only [if_neg h]; exact hm n
  | markFiltered name b =>
    intro n
    simp only [stepOp]
    by_cases h : n = name
    · simp only [if_pos h]; exact set_filtered_inv b (m n)
    · simp only [if_neg h]; exact hm n
  | resetAll => intro n; exact set_selected_inv _ _ _ (hm n)
  | selectVisible => intro n; exact set_selected_inv _ _ _ (hm n)
  | deselectAll => intro n; exact set_selected_inv _ _ _ (hm n)
  | detectionDone ex =>
    intro n
    simp only [stepOp, applyDetection]
    by_cases h : n ∈ ex
    · simp only [if_pos h]; exact set_filtered_inv true (m n)
    · simp only [if_neg h]; exact hm n

/-- Any sequence of UI operations preserves the invariant. -/
theorem runOps_inv (ops : List Op) (m : String → ItemState) (hm : Inv m) :
    Inv (runOps ops m) := by
  induction ops generalizing m with
  | nil => exact hm
  | cons op ops ih =>
    simp only [runOps, List.foldl_cons] at *
    exact ih _ (stepOp_inv m hm op)

/-- Claim C1: for every item and every sequence of state-machine operations
(toggle, markFiltered, resetAll, selectVisible, deselectAll, applying a
detection result), `filtered = true` implies `selected = false` at every
point; `set_filtered true` always forces `selected = false`, and forcing
`selected = true` always clears `filtered`. -/
theorem selection_state_invariant :
    (∀ s : ItemState, (set_filtered true s).selected = false) ∧
    (∀ s : ItemState, (set_selected true true s).filtered = false) ∧
    (∀ m, Inv m → ∀ op, Inv (stepOp op m)) ∧
    (∀ ops, Inv (runOps ops (fun _ => initState))) := by
  refine ⟨by decide, by decide, fun m hm op => stepOp_inv m hm op,
    fun ops => runOps_inv ops _ ?_⟩
  intro n h
  simp [initState] at h

/-- Witness for C1: the invariant-preservation conjunct applied at the
initial map and a concrete operation. -/
theorem selection_state_invariant_witness :
    Inv (stepOp .deselectAll (fun _ => initState)) :=
  selection_state_invariant.2.2.1 (fun _ => initState)
    (fun _ h => by simp [initState] at h) .deselectAll

/-- Claim C5: `selectVisible` (soft) selects every unfiltered item, never
changes any item's `filtered` flag, and never selects a filtered item (a
filtered item's selection is left exactly as it was). -/
theorem select_visible_soft (m : String → ItemState) (n : String) :
    ((stepOp .selectVisible m) n).filtered = (m n).filtered ∧
    ((m n).filtered = false → ((stepOp .selectVisible m) n).selected = true) ∧
    ((m n).filtered = true → ((stepOp .selectVisible m) n).selected = (m n).selected) := by
  have h : ∀ s : ItemState, (set_selected true false s).filtered = s.filtered ∧
      (s.filtered = false → (set_selected true false s).selected = true) ∧
      (s.filtered = true → (set_selected true false s).selected = s.selected) := by
    decide
  simpa only [stepOp] using h (m n)

/-- Witness for C5: on the fresh (unfiltered) map, `selectVisible` selects
the item. -/
theorem select_visible_soft_witness :
    ((stepOp .selectVisible (fun _ => initState)) "x").selected = true :=
  (select_visible_soft (fun _ => initState) "x").2.1 rfl

/-! ## Watermark detection -/

/-- Boolean exclusion test, unfolded to its logical reading. -/
theorem wmExcludes_eq_true (score : String → Option Int) (t : Int)
    (inv : Bool) (name : String) :
    wmExcludes score t inv name = true ↔
      (score name = none ∨
        ∃ v, score name = some v ∧ (inv = false → v < t) ∧ (inv = true → t ≤ v)) := by
  unfold wmExcludes
  cases h : score name with
  | none => simp
  | some v => cases inv <;> simp

/-- With a decodable candidate, the `invert` exclusion test is the negation
of the plain one. -/
theorem wmExcludes_invert (score : String → Option Int) (t : Int)
    (name : String) (h : (score name).isSome) :
    wmExcludes score t false name = !(wmExcludes score t true name) := by
  unfold wmExcludes
  cases hs : score name with
  | none => rw [hs] at h; simp at h
  | some v => simp

/-- Claim C3: a candidate is excluded by watermark detection iff it failed to
decode/match (fail-closed), or `invert = false` and its score is below the
threshold, or `invert = true` and its score is at or above the threshold. -/
theorem watermark_exclusion_rule (score : String → Option Int) (t : Int)
    (inv : Bool) (files : List String) (name : String) :
    name ∈ watermark_check_task (some ()) score t inv files ↔
      name ∈ files ∧
        (score name = none ∨
          ∃ v, score name = some v ∧ (inv = false → v < t) ∧ (inv = true → t ≤ v)) := by
  simp only [watermark_check_task, List.mem_filter, wmExcludes_eq_true]

/-- Claim C8: when every candidate decodes, the `invert = true` exclusion
set is the complement, within the candidate list, of the `invert = false`
exclusion set. -/
theorem watermark_invert_complement (score : String → Option Int) (t : Int)
    (files : List String) (hall : ∀ f ∈ files, (score f).isSome) (name : String) :
    name ∈ watermark_check_task (some ()) score t true files ↔
      name ∈ files ∧ name ∉ watermark_check_task (some ()) score t false files := by
  simp only [watermark_check_task, List.mem_filter]
  constructor
  · rintro ⟨hm, he⟩
    refine ⟨hm, ?_⟩
    rintro ⟨-, he'⟩
    rw [wmExcludes_invert score t name (hall name hm), he] at he'
    simp at he'
  · rintro ⟨hm, hne⟩
    refine ⟨hm, ?_⟩
    by_contra hfalse
    refine hne ⟨hm, ?_⟩
    rw [wmExcludes_invert score t name (hall name hm)]
    simp [Bool.not_eq_true] at hfalse
    simp [hfalse]

/-- Witness for C8 at a concrete score map and candidate list. -/
theorem watermark_invert_complement_witness :
    "a" ∈ watermark_check_task (some ()) exScore 0 true ["a"] ↔
      "a" ∈ ["a"] ∧ "a" ∉ watermark_check_task (some ()) exScore 0 false ["a"] :=
  watermark_invert_complement exScore 0 ["a"] (fun _ _ => rfl) "a"

/-- Claim C10: when the watermark template itself fails to load, the task
still emits its normal terminal result, with an empty exclusion list, and
applying that empty result leaves every item's state unchanged. -/
theorem watermark_template_failure_empty_result (score : String → Option Int)
    (t : Int) (inv : Bool) (files : List String) (m : String → ItemState)
    (n : String) :
    watermark_check_task none score t inv files = [] ∧
      applyDetection [] m n = m n :=
  ⟨rfl, by simp [applyDetection]⟩

/-! ## Document assembly -/

/-- Claim C7: an assembly request with an empty identity list fails
immediately; no output is produced (`fail` carries no pages). -/
theorem assembly_empty_selection (decode : String → Option Nat) :
    create_pdf_task decode [] = .fail := rfl

/-- Claim C6: a decode failure on the cover is fatal (failure, no output);
a decode failure on any later identity only skips that page, the job
succeeds and the output is exactly the successfully decoded pages in input
order with the cover first; in particular with three candidates of which
only the second fails, the result is success with exactly 2 pages. -/
theorem assembly_error_policy :
    (∀ (decode : String → Option Nat) (cover : String) (rest : List String),
        decode cover = none → create_pdf_task decode (cover :: rest) = .fail) ∧
    (∀ (decode : String → Option Nat) (cover : String) (rest : List String) (c : Nat),
        decode cover = some c →
        create_pdf_task decode (cover :: rest) = .success (c :: rest.filterMap decode)) ∧
    (∀ (decode : String → Option Nat) (a b cfile : String) (pa pc : Nat),
        decode a = some pa → decode b = none → decode cfile = some pc →
        create_pdf_task decode [a, b, cfile] = .success [pa, pc]) := by
  refine ⟨?_, ?_, ?_⟩
  · intro decode cover rest h; simp [create_pdf_task, h]
  · intro decode cover rest c h; simp [create_pdf_task, h]
  · intro decode a b cfile pa pc ha hb hc
    simp [create_pdf_task, ha, List.filterMap_cons, hb, hc]

/-- Witness for C6: base decodes, second of three fails, third decodes:
success with exactly the two surviving pages. -/
theorem assembly_error_policy_witness :
    create_pdf_task exDecode ["a", "b", "c"] = .success [10, 30] :=
  assembly_error_policy.2.2 exDecode "a" "b" "c" 10 30 rfl rfl rfl

/-! ## Deduplication -/

/-- Looking up the key just inserted hits the new binding. -/
theorem lookupCache_cons_self (cache : List (String × Nat)) (k : String) (v : Nat) :
    lookupCache ((k, v) :: cache) k = some v := by
  unfold lookupCache
  rw [List.find?_cons_of_pos _ (by simp)]

/-- Looking up a different key skips the new binding. -/
theorem lookupCache_cons_ne (cache : List (String × Nat)) (k k' : String) (v : Nat)
    (hne : k ≠ k') : lookupCache ((k', v) :: cache) k = lookupCache cache k := by
  unfold lookupCache
  rw [List.find?_cons_of_neg _ (by simp [Ne.symm hne])]

/-- `dedupSpec` on fewer than two candidates. -/
theorem dedupSpec_nil (h : String → Nat) (dist : Nat → Nat → Nat) (d : Nat) :
    dedupSpec h dist d [] = [] := rfl

/-- `dedupSpec` on a single candidate. -/
theorem dedupSpec_single (h : String → Nat) (dist : Nat → Nat → Nat) (d : Nat)
    (a : String) : dedupSpec h dist d [a] = [] := rfl

/-- Unfolding `dedupSpec` on an adjacent pair. -/
theorem dedupSpec_cons₂ (h : String → Nat) (dist : Nat → Nat → Nat) (d : Nat)
    (a b : String) (rest : List String) :
    dedupSpec h dist d (a :: b :: rest) =
      (if dist (h a) (h b) ≤ d then [a] else []) ++ dedupSpec h dist d (b :: rest) := rfl

/-- When every remaining hash succeeds and the cache holds the previous
candidate's original hash, the loop produces exactly the adjacent-pair
exclusions of `dedupSpec`. -/
theorem dedupGo_total (phash : String → Option Nat) (h : String → Nat)
    (dist : Nat → Nat → Nat) (d : Nat) :
    ∀ (rest : List String), (∀ f ∈ rest, phash f = some (h f)) →
      ∀ (cache : List (String × Nat)) (prev : String) (acc : List String),
        lookupCache cache prev = some (h prev) →
        dedupGo phash dist d cache prev rest acc =
          acc ++ dedupSpec h dist d (prev :: rest) := by
  intro rest
  induction rest with
  | nil => intro _ cache prev acc _; simp [dedupGo, dedupSpec_single]
  | cons curr rest' ih =>
    intro hall cache prev acc hl
    have hc : phash curr = some (h curr) := hall curr (by simp)
    simp only [dedupGo, hl, hc]
    rw [ih (fun f hf => hall f (by simp [hf])) _ curr _
      (lookupCache_cons_self cache curr (h curr))]
    rw [dedupSpec_cons₂]
    by_cases hd : dist (h prev) (h curr) ≤ d <;> simp [hd]

/-- Once the previous candidate is absent from the cache and every remaining
candidate is too, every remaining iteration fails its lookup and the
exclusion list never grows. -/
theorem dedupGo_stuck (phash : String → Option Nat) (dist : Nat → Nat → Nat)
    (d : Nat) :
    ∀ (rest : List String) (cache : List (String × Nat)) (prev : String)
      (acc : List String),
      lookupCache cache prev = none →
      (∀ f ∈ rest, lookupCache cache f = none) →
      dedupGo phash dist d cache prev rest acc = acc := by
  intro rest
  induction rest with
  | nil => intro _ _ _ _ _; rfl
  | cons curr rest' ih =>
    intro cache prev acc hprev hrest
    simp only [dedupGo, hprev]
    exact ih cache curr acc (hrest curr (by simp)) (fun f hf => hrest f (by simp [hf]))

/-- Running the loop through successfully hashed candidates `mid` and then a
candidate whose hash fails: the exclusions are exactly those of the
successful prefix; nothing after the failure is ever excluded, because the
failed candidate is never cached and every later lookup misses. -/
theorem dedupGo_then_fail (phash : String → Option Nat) (h : String → Nat)
    (dist : Nat → Nat → Nat) (d : Nat) (bad : String) (post : List String)
    (hbad : phash bad = none) :
    ∀ (mid : List String) (cache : List (String × Nat)) (prev : String)
      (acc : List String),
      (∀ f ∈ mid, phash f = some (h f)) →
      lookupCache cache prev = some (h prev) →
      (∀ k ∈ bad :: post, lookupCache cache k = none) →
      (∀ k ∈ bad :: post, k ∉ mid) →
      dedupGo phash dist d cache prev (mid ++ bad :: post) acc =
        acc ++ dedupSpec h dist d (prev :: mid) := by
  intro mid
  induction mid with
  | nil =>
    intro cache prev acc _ hprev hnone _
    simp only [List.nil_append, dedupGo, hprev, hbad]
    rw [dedupGo_stuck phash dist d post cache bad acc (hnone bad (by simp))
      (fun f hf => hnone f (by simp [hf]))]
    simp [dedupSpec_single]
  | cons curr mid' ih =>
    intro cache prev acc hmid hprev hnone hdisj
    have hc : phash curr = some (h curr) := hmid curr (by simp)
    simp only [List.cons_append, dedupGo, hprev, hc]
    simp only [List.append_eq]
    rw [ih ((curr, h curr) :: cache) curr
      (if dist (h prev) (h curr) ≤ d then acc ++ [prev] else acc)
      (fun f hf => hmid f (by simp [hf]))
      (lookupCache_cons_self cache curr (h curr))
      (fun k hk => by
        have hkc : k ≠ curr := fun he => hdisj k hk (by simp [he])
        rw [lookupCache_cons_ne cache k curr (h curr) hkc]
        exact hnone k hk)
      (fun k hk hmem => hdisj k hk (by simp [hmem]))]
    rw [dedupSpec_cons₂]
    by_cases hd : dist (h prev) (h curr) ≤ d <;> simp [hd]

/-- Claim C2: with every hash succeeding, deduplication compares each
candidate against the cached original hash of its immediate predecessor and
excludes the predecessor exactly when the distance is within the threshold
(this is `dedupSpec`); when all consecutive pairs are similar the excluded
candidates are exactly all but the last; and on three frames at distances 3
and 20 with threshold 10, exactly the first frame is excluded. -/
theorem dedup_predecessor_rule :
    (∀ (phash : String → Option Nat) (h : String → Nat) (dist : Nat → Nat → Nat)
        (d : Nat) (f0 f1 : String) (rest : List String),
        (∀ f ∈ f0 :: f1 :: rest, phash f = some (h f)) →
        dedupPass phash dist d (f0 :: f1 :: rest) =
          dedupSpec h dist d (f0 :: f1 :: rest)) ∧
    (∀ (h : String → Nat) (dist : Nat → Nat → Nat) (d : Nat) (files : List String),
        List.Chain' (fun a b => dist (h a) (h b) ≤ d) files →
        dedupSpec h dist d files = files.dropLast) ∧
    animation_check_task exPhash Nat.dist 10 ["frame0", "frame1", "frame2"] =
      ["frame0"] := by
  refine ⟨?_, ?_, ?_⟩
  · intro phash h dist d f0 f1 rest hall
    have h0 : phash f0 = some (h f0) := hall f0 (by simp)
    show (match phash f0 with
      | none => []
      | some hh => dedupGo phash dist d [(f0, hh)] f0 (f1 :: rest) []) = _
    rw [h0]
    show dedupGo phash dist d [(f0, h f0)] f0 (f1 :: rest) [] = _
    rw [dedupGo_total phash h dist d (f1 :: rest)
      (fun f hf => hall f (by simp [hf])) _ f0 []
      (lookupCache_cons_self [] f0 (h f0))]
    rfl
  · intro h dist d files
    induction files with
    | nil => intro _; rfl
    | cons a rest ih =>
      cases rest with
      | nil => intro _; rfl
      | cons b rest' =>
        intro hch
        rw [List.chain'_cons] at hch
        rw [dedupSpec_cons₂, if_pos hch.1, ih hch.2]
        rfl
  · rfl

/-- Witness for C2: the all-hashes-succeed conjunct at the three-frame
example. -/
theorem dedup_predecessor_rule_witness :
    dedupPass exPhash Nat.dist 10 ["frame0", "frame1", "frame2"] =
      dedupSpec exHash Nat.dist 10 ["frame0", "frame1", "frame2"] :=
  dedup_predecessor_rule.1 exPhash exHash Nat.dist 10 "frame0" "frame1"
    ["frame2"] (fun _ _ => rfl)

/-- Counterexample to claim C4 as stated: candidates f1 f2 f3 f4 where only
f2 fails to hash, all other hashes are equal (distance 0) and the threshold
is 0.  The claim predicts that the later comparison f3-vs-f4 still takes
place and excludes f3; in the code the failed f2 is never cached, so the
f2-vs-f3 and f3-vs-f4 iterations both die on a cache miss (`KeyError`) and
the exclusion set stays empty. -/
theorem dedup_failure_poisons_counterexample :
    animation_check_task c4Phash Nat.dist 0 ["f1", "f2", "f3", "f4"] = [] ∧
      "f3" ∉ animation_check_task c4Phash Nat.dist 0 ["f1", "f2", "f3", "f4"] := by
  refine ⟨rfl, ?_⟩
  intro hmem
  simp [show animation_check_task c4Phash Nat.dist 0 ["f1", "f2", "f3", "f4"] = []
    from rfl] at hmem

/-- Claim C4 amended: a hash failure on the first candidate aborts the pass
with an empty exclusion set; a hash failure on a later candidate (with
distinct candidate names) keeps exactly the exclusions already made among
the successfully hashed prefix, and every comparison after the failure is
skipped on a cache miss, so no item after the failure point is ever
excluded.  The pass itself still runs to completion and emits its result. -/
theorem dedup_failure_behavior :
    (∀ (phash : String → Option Nat) (dist : Nat → Nat → Nat) (d : Nat)
        (f0 : String) (rest : List String),
        rest ≠ [] → phash f0 = none →
        dedupPass phash dist d (f0 :: rest) = []) ∧
    (∀ (phash : String → Option Nat) (h : String → Nat) (dist : Nat → Nat → Nat)
        (d : Nat) (p0 : String) (pre : List String) (bad : String)
        (post : List String),
        (∀ f ∈ p0 :: pre, phash f = some (h f)) →
        phash bad = none →
        (∀ k ∈ bad :: post, k ∉ p0 :: pre) →
        dedupPass phash dist d ((p0 :: pre) ++ bad :: post) =
          dedupSpec h dist d (p0 :: pre)) := by
  constructor
  · intro phash dist d f0 rest hne h0
    cases rest with
    | nil => exact absurd rfl hne
    | cons r rest' =>
      show (match phash f0 with
        | none => []
        | some hh => dedupGo phash dist d [(f0, hh)] f0 (r :: rest') []) = []
      rw [h0]
  · intro phash h dist d p0 pre bad post hpre hbad hdisj
    have hp0 : phash p0 = some (h p0) := hpre p0 (by simp)
    have hlook : lookupCache [(p0, h p0)] p0 = some (h p0) :=
      lookupCache_cons_self [] p0 (h p0)
    have hnone : ∀ k ∈ bad :: post, lookupCache [(p0, h p0)] k = none := by
      intro k hk
      have hkp : k ≠ p0 := fun he => hdisj k hk (by simp [he])
      rw [lookupCache_cons_ne [] k p0 (h p0) hkp]
      rfl
    have hdisj' : ∀ k ∈ bad :: post, k ∉ pre :=
      fun k hk hmem => hdisj k hk (by simp [hmem])
    have hpre' : ∀ f ∈ pre, phash f = some (h f) :=
      fun f hf => hpre f (by simp [hf])
    cases pre with
    | nil =>
      show (match phash p0 with
        | none => []
        | some hh => dedupGo phash dist d [(p0, hh)] p0 (bad :: post) []) = _
      rw [hp0]
      show dedupGo phash dist d [(p0, h p0)] p0 ([] ++ bad :: post) [] = _
      rw [dedupGo_then_fail phash h dist d bad post hbad [] [(p0, h p0)] p0 []
        (by intro f hf; simp at hf) hlook hnone (by intro k _; simp)]
      rfl
    | cons q pre' =>
      show (match phash p0 with
        | none => []
        | some hh =>
            dedupGo phash dist d [(p0, hh)] p0 ((q :: pre') ++ bad :: post) []) = _
      rw [hp0]
      show dedupGo phash dist d [(p0, h p0)] p0 ((q :: pre') ++ bad :: post) [] = _
      rw [dedupGo_then_fail phash h dist d bad post hbad (q :: pre') [(p0, h p0)]
        p0 [] hpre' hlook hnone hdisj']
      rfl

/-- Witness for C4's amended statement: the mid-pass-failure conjunct at the
counterexample instance (prefix ["f1"], failing "f2", suffix ["f3","f4"]). -/
theorem dedup_failure_behavior_witness :
    dedupPass c4Phash Nat.dist 0 (["f1"] ++ "f2" :: ["f3", "f4"]) =
      dedupSpec (fun _ => 0) Nat.dist 0 ["f1"] :=
  dedup_failure_behavior.2 c4Phash (fun _ => 0) Nat.dist 0 "f1" [] "f2"
    ["f3", "f4"] (by decide) rfl (by decide)

/-! ## Natural ordering -/

/-- `cmpN` reads back as `<`. -/
theorem cmpN_eq_lt {a b : Nat} : cmpN a b = .lt ↔ a < b := by
  unfold cmpN
  by_cases h1 : a < b <;> by_cases h2 : b < a <;> simp [h1, h2]

/-- `cmpN` reads back as `=`. -/
theorem cmpN_eq_eq {a b : Nat} : cmpN a b = .eq ↔ a = b := by
  unfold cmpN
  by_cases h1 : a < b <;> by_cases h2 : b < a <;> simp [h1, h2] <;> omega

/-- `cmpN` is a lawful comparator. -/
theorem cmpN_lawful : LawfulCmp cmpN := by
  refine ⟨?_, ?_, ?_⟩
  · intro a b
    unfold cmpN
    rcases Nat.lt_trichotomy a b with h | h | h
    · simp [h, Nat.lt_asymm h, Ordering.swap]
    · subst h
      simp [Ordering.swap]
    · simp [h, Nat.lt_asymm h, Ordering.swap]
  · intro a b d h1 h2
    rw [cmpN_eq_lt] at h1 h2 ⊢
    omega
  · intro a b d h
    rw [cmpN_eq_eq] at h
    rw [h]

/-- `cmpChar` is a lawful comparator. -/
theorem cmpChar_lawful : LawfulCmp cmpChar := by
  refine ⟨?_, ?_, ?_⟩
  · intro a b; exact cmpN_lawful.1 _ _
  · intro a b d h1 h2; exact cmpN_lawful.2.1 _ _ _ h1 h2
  · intro a b d h
    unfold cmpChar at *
    rw [cmpN_eq_eq] at h
    rw [h]

/-- Unfolding `cmpListBy` on two nonempty lists. -/
theorem cmpListBy_cons (c : α → α → Ordering) (a b : α) (as bs : List α) :
    cmpListBy c (a :: as) (b :: bs) =
      match c a b with
      | .eq => cmpListBy c as bs
      | o => o := rfl

/-- Right congruence of `eq`, derivable for any lawful comparator. -/
theorem LawfulCmp.right_eq {c : α → α → Ordering} (hc : LawfulCmp c)
    {a b d : α} (h : c b d = .eq) : c a b = c a d := by
  obtain ⟨hsymm, _, heq⟩ := hc
  have h1 : c b a = c d a := heq b d a h
  calc c a b = (c b a).swap := by rw [hsymm]
    _ = (c d a).swap := by rw [h1]
    _ = c a d := by rw [hsymm]

/-- Lexicographic list comparison by a lawful comparator is lawful. -/
theorem cmpListBy_lawful (c : α → α → Ordering) (hc : LawfulCmp c) :
    LawfulCmp (cmpListBy c) := by
  obtain ⟨hsymm, hlt, heq⟩ := hc
  refine ⟨?_, ?_, ?_⟩
  · intro l m
    induction l generalizing m with
    | nil => cases m <;> rfl
    | cons a as ih =>
      cases m with
      | nil => rfl
      | cons b bs =>
        rw [cmpListBy_cons, cmpListBy_cons, ← hsymm a b]
        cases h : c a b with
        | lt => rfl
        | gt => rfl
        | eq => simpa [Ordering.swap] using ih bs
  · intro l1 l2 l3 h12 h23
    induction l1 generalizing l2 l3 with
    | nil =>
      cases l2 with
      | nil => exact absurd h12 (by simp [cmpListBy])
      | cons b bs =>
        cases l3 with
        | nil => exact absurd h23 (by simp [cmpListBy])
        | cons d ds => rfl
    | cons a1 as1 ih =>
      cases l2 with
      | nil => exact absurd h12 (by simp [cmpListBy])
      | cons a2 as2 =>
        cases l3 with
        | nil => exact absurd h23 (by simp [cmpListBy])
        | cons a3 as3 =>
          rw [cmpListBy_cons] at h12 h23 ⊢
          cases h1 : c a1 a2 with
          | gt => rw [h1] at h12; exact absurd h12 (by simp)
          | lt =>
            rw [h1] at h12
            cases h2 : c a2 a3 with
            | gt => rw [h2] at h23; exact absurd h23 (by simp)
            | lt =>
              have h3 : c a1 a3 = .lt := hlt _ _ _ h1 h2
              rw [h3]
            | eq =>
              have h3 : c a1 a3 = .lt := by
                rw [← LawfulCmp.right_eq ⟨hsymm, hlt, heq⟩ h2]
                exact h1
              rw [h3]
          | eq =>
            rw [h1] at h12
            cases h2 : c a2 a3 with
            | gt => rw [h2] at h23; exact absurd h23 (by simp)
            | lt =>
              have h3 : c a1 a3 = .lt := by rw [heq _ _ _ h1, h2]
              rw [h3]
            | eq =>
              have h3 : c a1 a3 = .eq := by rw [heq _ _ _ h1, h2]
              rw [h3]
              rw [h2] at h23
              exact ih _ _ h12 h23
  · intro l1 l2 l3 h12
    induction l1 generalizing l2 l3 with
    | nil =>
      cases l2 with
      | nil => rfl
      | cons b bs => exact absurd h12 (by simp [cmpListBy])
    | cons a1 as1 ih =>
      cases l2 with
      | nil => exact absurd h12 (by simp [cmpListBy])
      | cons a2 as2 =>
        rw [cmpListBy_cons] at h12
        cases h1 : c a1 a2 with
        | lt => rw [h1] at h12; exact absurd h12 (by simp)
        | gt => rw [h1] at h12; exact absurd h12 (by simp)
        | eq =>
          rw [h1] at h12
          cases l3 with
          | nil => rfl
          | cons a3 as3 =>
            rw [cmpListBy_cons, cmpListBy_cons, heq _ _ _ h1]
            cases h3 : c a2 a3 with
            | lt => rfl
            | gt => rfl
            | eq => simpa using ih _ _ h12

/-- `cmpKE` is a lawful comparator. -/
theorem cmpKE_lawful : LawfulCmp cmpKE := by
  have htxt : LawfulCmp (cmpListBy cmpChar) := cmpListBy_lawful _ cmpChar_lawful
  refine ⟨?_, ?_, ?_⟩
  · intro a b
    cases a <;> cases b <;> simp [cmpKE, Ordering.swap]
    · exact cmpN_lawful.1 _ _
    · exact htxt.1 _ _
  · intro a b d h1 h2
    cases a <;> cases b <;> cases d <;> simp_all [cmpKE]
    · exact cmpN_lawful.2.1 _ _ _ h1 h2
    · exact htxt.2.1 _ _ _ h1 h2
  · intro a b d h
    cases a <;> cases b <;> simp_all [cmpKE]
    · cases d <;> simp [cmpKE]
      rw [cmpN_eq_eq] at h
      rw [h]
    · cases d <;> simp [cmpKE]
      exact htxt.2.2 _ _ _ h

/-- The comparison of whole natural-sort keys is lawful. -/
theorem cmpKey_lawful : LawfulCmp (cmpListBy cmpKE) :=
  cmpListBy_lawful _ cmpKE_lawful

/-- Swap symmetry carried to `natCmp`. -/
theorem natCmp_swap (s t : String) : (natCmp s t).swap = natCmp t s :=
  cmpKey_lawful.1 _ _

/-- Counterexample to claim C9 as stated: the comparator is not a total
order on strings — it is not antisymmetric.  "A" and "a" differ only in
case, so their natural-sort keys coincide and each compares
less-or-equal to the other, yet the strings are distinct. -/
theorem natural_order_not_antisymmetric :
    natLe "A" "a" = true ∧ natLe "a" "A" = true ∧ "A" ≠ "a" := by
  refine ⟨rfl, rfl, ?_⟩
  decide

/-- Claim C9 amended: the natural-ordering comparator (split into digit and
non-digit runs, numeric runs as integers, non-numeric runs case-insensitive,
first differing run decides, shorter prefix first — `natural_sort_key`,
`cmpKE`, `natCmp`) is a total preorder on strings: total, transitive and
reflexive, though distinct strings differing only by letter case compare
equal; sorting ["img2","img10","img1"] with it yields
["img1","img2","img10"]. -/
theorem natural_order_total_preorder :
    (∀ s t : String, natLe s t = true ∨ natLe t s = true) ∧
    (∀ s t u : String, natLe s t = true → natLe t u = true → natLe s u = true) ∧
    (∀ s : String, natLe s s = true) ∧
    sortNat ["img2", "img10", "img1"] = ["img1", "img2", "img10"] := by
  refine ⟨?_, ?_, ?_, rfl⟩
  · intro s t
    unfold natLe
    cases h : natCmp s t with
    | lt => left; rfl
    | eq => left; rfl
    | gt =>
      right
      have hs := natCmp_swap s t
      rw [h] at hs
      rw [← hs]
      rfl
  · intro s t u h1 h2
    unfold natLe at h1 h2 ⊢
    cases hst : natCmp s t with
    | gt => rw [hst] at h1; exact absurd h1 (by simp [ordIsLE])
    | eq =>
      have : natCmp s u = natCmp t u := cmpKey_lawful.2.2 _ _ _ hst
      rw [this]
      exact h2
    | lt =>
      cases htu : natCmp t u with
      | gt => rw [htu] at h2; exact absurd h2 (by simp [ordIsLE])
      | eq =>
        have hut : natCmp u t = .eq := by
          have hs := natCmp_swap t u
          rw [htu] at hs
          exact hs.symm
        have : natCmp s u = natCmp s t := LawfulCmp.right_eq cmpKey_lawful hut
        rw [this, hst]
        rfl
      | lt =>
        have : natCmp s u = .lt := cmpKey_lawful.2.1 _ _ _ hst htu
        rw [this]
        rfl
  · intro s
    unfold natLe
    cases h : natCmp s s with
    | lt =>
      have hs := natCmp_swap s s
      rw [h] at hs
      exact absurd hs (by simp [Ordering.swap, h])
    | gt =>
      have hs := natCmp_swap s s
      rw [h] at hs
      exact absurd hs (by simp [Ordering.swap, h])
    | eq => rfl

/-- Witness for C9's amended statement: transitivity applied at concrete
strings. -/
theorem natural_order_total_preorder_witness :
    natLe "img1" "img10" = true :=
  natural_order_total_preorder.2.1 "img1" "img2" "img10" rfl rfl

end PptClean
